import Mathlib

/-!
Verification of the `pitch_shifter` VST plugin (`src/lib.rs`, `src/parameters.rs`).

The Rust code works on IEEE-754 floats; following the usual shallow-embedding
convention, floating-point arithmetic is modelled as exact arithmetic in a
linear ordered field (instantiated at `ℚ` for executable witnesses and at `ℝ`
where the statements mention `π`, `cos`, `sin`).  External crates
(`real_time_fir_iir_filters`, `signal_processing::Sdft`, `num::Complex::cis`,
`f64::powf`) are not part of this repository; they are modelled from the spec
as parameters bundled in `ExternalOps`.
-/

/-- Complex numbers with components in an arbitrary commutative ring, mirroring
`num::Complex<f64>` as used by the plugin. -/
structure Cplx (α : Type) where
  re : α
  im : α
deriving DecidableEq

/-- Complex multiplication, as in the `num` crate. -/
def Cplx.mul {α : Type} [CommRing α] (z w : Cplx α) : Cplx α :=
  ⟨z.re * w.re - z.im * w.im, z.re * w.im + z.im * w.re⟩

/-- Iterated complex multiplication `z^n` (with `z^0 = 1`). -/
def Cplx.cpow {α : Type} [CommRing α] (z : Cplx α) : ℕ → Cplx α
  | 0 => ⟨1, 0⟩
  | n + 1 => (Cplx.cpow z n).mul z

/-- The summation loop inside `PitchShifterPlugin::ifft_once` (src/lib.rs lines
41-46): starting at bin `k` with current rotation factor `zn`, accumulate `m`
terms `Re(x[k] * zn) * 2`, multiplying `zn` by `z` after each term (the
"incrementally updated rotation factor" of the source). -/
def ifftSum {α : Type} [CommRing α] (x : ℕ → Cplx α) (z : Cplx α) :
    ℕ → ℕ → Cplx α → α
  | _, 0, _ => 0
  | k, m + 1, zn => ((x k).mul zn).re * 2 + ifftSum x z (k + 1) m (zn.mul z)

/-- `PitchShifterPlugin::ifft_once` (src/lib.rs lines 37-47): partial inverse
transform of the length-`n` spectrum `x` evaluated at the rotation factor
`z = cis ω`.  The Rust slice `x_f[1..N/2 + 1]` runs over bins `1..n/2`
inclusive, with the running factor `z_n` initialised to `z`, and the result is
divided by `n`.  The rotation factor `z` (computed in Rust by
`Complex::cis(omega)` from the external `num` crate) is taken as an argument
here so that the definition stays executable. -/
def ifft_once {α : Type} [Field α] (n : ℕ) (z : Cplx α) (x : ℕ → Cplx α) : α :=
  ((x 0).re + ifftSum x z 1 (n / 2) z) / (n : α)

/-- Truncation toward zero, as performed by Rust's float-to-integer rounding in
the `%` remainder operation on `f64`. -/
def rtrunc {α : Type} [LinearOrderedRing α] [FloorRing α] (x : α) : ℤ :=
  if 0 ≤ x then ⌊x⌋ else ⌈x⌉

/-- Rust's `%` on `f64`: `a % b = a - b * trunc (a / b)` (remainder with the
sign of the dividend). -/
def frem {α : Type} [LinearOrderedField α] [FloorRing α] (a b : α) : α :=
  a - b * (rtrunc (a / b) : α)

/-- The mathematical modulus into `[0, b)` used by the spec's closed form
`(M·Δω) mod 2π`. -/
def mathMod {α : Type} [LinearOrderedField α] [FloorRing α] (a b : α) : α :=
  a - b * (⌊a / b⌋ : α)

/-- The per-sample phase update of src/lib.rs line 98:
`*omega = (*omega + domega_dt + TAU) % TAU`. -/
def phaseStep {α : Type} [LinearOrderedField α] [FloorRing α]
    (tau domega phase : α) : α :=
  frem (phase + domega + tau) tau

/-- `domega_dt` of src/lib.rs line 55: `TAU*(pitch_mul - 1.0)/WINDOW_LENGTH`
with `WINDOW_LENGTH = 1024` and `tau = 2π`. -/
def domegaDt {α : Type} [Field α] (tau r : α) : α :=
  tau * (r - 1) / 1024

/-! ### Parameter store: bit-level view (serialization, src/parameters.rs)

`vst::util::AtomicFloat` stores the exact 32-bit pattern of an `f32`
(`to_bits`/`from_bits` on an atomic word), so `get`/`set` round-trip every bit
pattern, including non-finite ones.  For the serialization entry points the
parameter state is therefore modelled at the bit level: each field is the
32-bit pattern of the stored `f32`, a natural number below `2^32`. -/

/-- Bit-level model of `BasicFilterParameters` (src/parameters.rs lines 32-37):
each field holds the 32-bit pattern of the stored `f32`. -/
structure ParamBits where
  pitch : ℕ
  pitch_fine : ℕ
  mix : ℕ
deriving DecidableEq

/-- `f32::to_le_bytes` on a 32-bit pattern: the four little-endian bytes. -/
def toLeBytes (x : ℕ) : List ℕ :=
  [x % 256, x / 256 % 256, x / 256 ^ 2 % 256, x / 256 ^ 3 % 256]

/-- `f32::from_le_bytes`: reassemble a 32-bit pattern from four little-endian
bytes. -/
def fromLeBytes (b0 b1 b2 b3 : ℕ) : ℕ :=
  b0 + 256 * b1 + 256 ^ 2 * b2 + 256 ^ 3 * b3

/-- `BasicFilterParameters::get_preset_data` (src/parameters.rs lines 108-115):
concatenate the little-endian byte encodings of pitch, fine pitch and mix, in
that order. -/
def get_preset_data (p : ParamBits) : List ℕ :=
  toLeBytes p.pitch ++ toLeBytes p.pitch_fine ++ toLeBytes p.mix

/-- `BasicFilterParameters::get_bank_data` (src/parameters.rs lines 117-120):
delegates to `get_preset_data`. -/
def get_bank_data (p : ParamBits) : List ℕ :=
  get_preset_data p

/-- One `*data[i..].split_array_ref().0` read of src/parameters.rs lines
125-127: take four bytes starting at offset `i`; `split_array_ref` panics
(`none`) when fewer than four bytes remain. -/
def readF32 (data : List ℕ) (i : ℕ) : Option ℕ :=
  match data.drop i with
  | b0 :: b1 :: b2 :: b3 :: _ => some (fromLeBytes b0 b1 b2 b3)
  | _ => none

/-- `BasicFilterParameters::load_preset_data` (src/parameters.rs lines
122-128): read three little-endian `f32` fields at offsets 0, 4, 8 and store
them as pitch, fine pitch and mix.  A buffer shorter than 12 bytes makes
`split_array_ref` panic, modelled by `none`; bytes past offset 12 are never
read. -/
def load_preset_data (data : List ℕ) : Option ParamBits :=
  match readF32 data 0, readF32 data 4, readF32 data 8 with
  | some p, some f, some m => some ⟨p, f, m⟩
  | _, _, _ => none

/-- `BasicFilterParameters::load_bank_data` (src/parameters.rs lines 130-133):
delegates to `load_preset_data`. -/
def load_bank_data (data : List ℕ) : Option ParamBits :=
  load_preset_data data

/-! ### Parameter store: value-level view (automation, src/parameters.rs) -/

/-- `PITCH_PER_FINE_PITCH = 1.0/12.0` (src/parameters.rs line 4). -/
def PITCH_PER_FINE_PITCH (α : Type) [Field α] : α := 1 / 12

/-- `OCTAVES_PER_UNIT_PITCH = 1.0` (src/parameters.rs line 5). -/
def OCTAVES_PER_UNIT_PITCH (α : Type) [Field α] : α := 1

/-- `CENTS_PER_UNIT_PITCH = 12.0*100.0*OCTAVES_PER_UNIT_PITCH`
(src/parameters.rs line 6). -/
def CENTS_PER_UNIT_PITCH (α : Type) [Field α] : α :=
  12 * 100 * OCTAVES_PER_UNIT_PITCH α

/-- `PITCH_MAX = 1.0/OCTAVES_PER_UNIT_PITCH` (src/parameters.rs line 7). -/
def PITCH_MAX (α : Type) [Field α] : α := 1 / OCTAVES_PER_UNIT_PITCH α

/-- `PITCH_MIN = -1.0/OCTAVES_PER_UNIT_PITCH` (src/parameters.rs line 8). -/
def PITCH_MIN (α : Type) [Field α] : α := -1 / OCTAVES_PER_UNIT_PITCH α

/-- The `Control` enum (src/parameters.rs lines 10-16). -/
inductive Control
  | pitch
  | pitchFine
  | mix
deriving DecidableEq

/-- `Control::CONTROLS` (src/parameters.rs lines 20-24). -/
def CONTROLS : List Control :=
  [Control.pitch, Control.pitchFine, Control.mix]

/-- `Control::from` (src/parameters.rs lines 26-29): `Self::CONTROLS[i as
usize]`.  On an `i32` index the `as usize` cast sends every negative `i` to a
value at least `2^64 - 2^31 > 3`, so indexing panics (`none`) exactly when `i`
is outside `0..=2`. -/
def Control.fromInt (i : ℤ) : Option Control :=
  if 0 ≤ i then CONTROLS.get? i.toNat else none

/-- Value-level model of `BasicFilterParameters`: each field is the numeric
value of the stored `f32`, modelled as an exact rational. -/
structure ParamVals where
  pitch : ℚ
  pitch_fine : ℚ
  mix : ℚ
deriving DecidableEq

/-- `BasicFilterParameters::get_parameter` (src/parameters.rs lines 72-80);
`none` models the panic of `Control::from` on an out-of-range index. -/
def get_parameter (p : ParamVals) (i : ℤ) : Option ℚ :=
  (Control.fromInt i).map fun c =>
    match c with
    | Control.pitch => (p.pitch - PITCH_MIN ℚ) / (PITCH_MAX ℚ - PITCH_MIN ℚ)
    | Control.pitchFine =>
        (p.pitch_fine - PITCH_MIN ℚ) / (PITCH_MAX ℚ - PITCH_MIN ℚ)
    | Control.mix => p.mix

/-- `BasicFilterParameters::set_parameter` (src/parameters.rs lines 82-90). -/
def set_parameter (p : ParamVals) (i : ℤ) (v : ℚ) : Option ParamVals :=
  (Control.fromInt i).map fun c =>
    match c with
    | Control.pitch =>
        { p with pitch := v * (PITCH_MAX ℚ - PITCH_MIN ℚ) + PITCH_MIN ℚ }
    | Control.pitchFine =>
        { p with pitch_fine := v * (PITCH_MAX ℚ - PITCH_MIN ℚ) + PITCH_MIN ℚ }
    | Control.mix => { p with mix := v }

/-- `BasicFilterParameters::get_parameter_name` (src/parameters.rs lines
61-69). -/
def get_parameter_name (i : ℤ) : Option String :=
  (Control.fromInt i).map fun c =>
    match c with
    | Control.pitch => "Pitch"
    | Control.pitchFine => "Pitch (Fine)"
    | Control.mix => "Mix"

/-- `BasicFilterParameters::get_parameter_label` (src/parameters.rs lines
41-49). -/
def get_parameter_label (i : ℤ) : Option String :=
  (Control.fromInt i).map fun c =>
    match c with
    | Control.pitch => "cents"
    | Control.pitchFine => "cents"
    | Control.mix => "%"

/-- `BasicFilterParameters::get_parameter_text` (src/parameters.rs lines
51-59), with the `format!("{:.3}", _)` string rendering abstracted away: the
numeric value that would be formatted is returned. -/
def get_parameter_text (p : ParamVals) (i : ℤ) : Option ℚ :=
  (Control.fromInt i).map fun c =>
    match c with
    | Control.pitch =>
        (p.pitch + p.pitch_fine * PITCH_PER_FINE_PITCH ℚ) * CENTS_PER_UNIT_PITCH ℚ
    | Control.pitchFine =>
        (p.pitch + p.pitch_fine * PITCH_PER_FINE_PITCH ℚ) * CENTS_PER_UNIT_PITCH ℚ
    | Control.mix => p.mix * 100

/-- `BasicFilterParameters::can_be_automated` (src/parameters.rs lines
104-106): `index < Control::CONTROLS.len() as i32`, with no lower-bound
check. -/
def can_be_automated (i : ℤ) : Bool :=
  decide (i < 3)

/-! ### The engine (src/lib.rs) -/

/-- Modelled from the spec: the external collaborators the engine depends on
only through their contracts (spec §1, §4.5, §6).  `pow2` is `2.0f64.powf`;
`cis` is `num::Complex::cis` (`e^{iω}`); `filtStep` is
`ThirdOrderButterworthFilter::filter`, taking the stage's cutoff `omega`, the
sample rate and one input sample together with the opaque internal filter
state `σ`, and returning the four successive-order outputs plus the new
internal state; `initSt` is the internal state produced by
`ThirdOrderButterworthFilter::new`; `sdftStep` is `signal_processing::Sdft`,
feeding one new sample into the sliding spectrum and its auxiliary buffer. -/
structure ExternalOps (α σ : Type) where
  pi : α
  pow2 : α → α
  cis : α → Cplx α
  filtStep : α → α → α → σ → (Fin 4 → α) × σ
  initSt : σ
  sdftStep : α → (ℕ → Cplx α) × List α → (ℕ → Cplx α) × List α

/-- One `ThirdOrderButterworthFilter`: its tunable cutoff `omega` plus the
opaque internal state of the external filter crate. -/
structure BWFilt (α σ : Type) where
  omega : α
  st : σ

/-- The per-channel slice of `PitchShifterPlugin` (src/lib.rs lines 27-30),
grouping index `c` of the four parallel arrays exactly as the `zip` chain of
src/lib.rs lines 77-81 does: `aa 0/1/2/3` are `filter_low0/low1/high0/high1`,
`ap` is the anti-pop filter, `spec` is `dft` (spectrum plus auxiliary buffer)
and `omega` the per-channel phase. -/
structure Chan (α σ : Type) where
  aa : Fin 4 → BWFilt α σ
  ap : BWFilt α σ
  spec : (ℕ → Cplx α) × List α
  omega : α

/-- `PitchShifterPlugin` (src/lib.rs lines 24-33).  The cached ratio
`pitch_mul` is modelled as `Option α`: `none` models the `f64::NAN` sentinel
set by `new`, which compares unequal to every float (itself included), exactly
as `none ≠ some r` for every `r`.  The parameter store (`param`) is modelled by
the three values read from it at the start of `process`. -/
structure Engine (α σ : Type) where
  pitch : α
  pitch_fine : α
  mix : α
  chans : Fin 2 → Chan α σ
  pitch_mul : Option α
  rate : α

/-- The effective pitch ratio of src/lib.rs lines 53-54:
`2^((pitch + pitch_fine*PITCH_PER_FINE_PITCH)*OCTAVES_PER_UNIT_PITCH)`. -/
def effectivePitchMul {α σ : Type} [LinearOrderedField α]
    (P : ExternalOps α σ) (pitch fine : α) : α :=
  P.pow2 ((pitch + fine * PITCH_PER_FINE_PITCH α) * OCTAVES_PER_UNIT_PITCH α)

/-- `omega_ceil0` of src/lib.rs line 63 (`MARGIN = 0.2 = 1/5`). -/
def omegaCeil0 {α σ : Type} [LinearOrderedField α]
    (P : ExternalOps α σ) (rate r : α) : α :=
  (if r * P.pow2 (1 / 5) > 1 then rate / r * P.pow2 (-(1 / 5)) else rate) * P.pi

/-- `omega_ceil1` of src/lib.rs line 64. -/
def omegaCeil1 {α σ : Type} [LinearOrderedField α]
    (P : ExternalOps α σ) (rate r : α) : α :=
  (if r * P.pow2 (-(1 / 5)) < 1 then rate * r * P.pow2 (-(1 / 5)) else rate) * P.pi

/-- `omega_floor0` of src/lib.rs line 65 (`WINDOW_LENGTH/8 = 128`). -/
def omegaFloor0 {α σ : Type} [LinearOrderedField α]
    (P : ExternalOps α σ) (rate r : α) : α :=
  rate / r / 128 * (2 * P.pi) * P.pow2 (1 / 5)

/-- `omega_floor1` of src/lib.rs line 66. -/
def omegaFloor1 {α σ : Type} [LinearOrderedField α]
    (P : ExternalOps α σ) (rate _r : α) : α :=
  rate / 128 * (2 * P.pi) * P.pow2 (1 / 5)

/-- The cutoff-rescheduling loop body of src/lib.rs lines 67-73: write the four
freshly computed cutoffs into the channel's band-limiting filters, leaving
their internal states untouched. -/
def reschedule {α σ : Type} [LinearOrderedField α]
    (P : ExternalOps α σ) (rate r : α) (ch : Chan α σ) : Chan α σ :=
  { ch with
    aa := fun k =>
      if k = 0 then ⟨omegaCeil0 P rate r, (ch.aa 0).st⟩
      else if k = 1 then ⟨omegaCeil1 P rate r, (ch.aa 1).st⟩
      else if k = 2 then ⟨omegaFloor0 P rate r, (ch.aa 2).st⟩
      else ⟨omegaFloor1 P rate r, (ch.aa 3).st⟩ }

/-- The processed ("wet") sample: the filter/analysis/resynthesis chain of
src/lib.rs lines 86-94, without the mixing step, as a pure projection. -/
def chainY {α σ : Type} [LinearOrderedField α] [FloorRing α]
    (P : ExternalOps α σ) (rate : α) (ch : Chan α σ) (x : α) : α :=
  let f0 := P.filtStep (ch.aa 0).omega rate x (ch.aa 0).st
  let f2 := P.filtStep (ch.aa 2).omega rate (f0.1 0) (ch.aa 2).st
  let spec := P.sdftStep (f2.1 3) ch.spec
  let y0 := ifft_once 1024 (P.cis ch.omega) spec.1
  let f1 := P.filtStep (ch.aa 1).omega rate y0 (ch.aa 1).st
  let f3 := P.filtStep (ch.aa 3).omega rate (f1.1 0) (ch.aa 3).st
  let fap := P.filtStep ch.ap.omega rate (f3.1 3) ch.ap.st
  fap.1 0

/-- The per-sample loop body of src/lib.rs lines 83-99: pre lowpass (output 0)
then pre highpass (output 3), sliding-spectrum update, partial resynthesis at
the current phase, post lowpass then post highpass, anti-pop lowpass, dry/wet
mix, and finally the phase update. -/
def processSample {α σ : Type} [LinearOrderedField α] [FloorRing α]
    (P : ExternalOps α σ) (rate mix domega : α) (ch : Chan α σ) (x : α) :
    α × Chan α σ :=
  let f0 := P.filtStep (ch.aa 0).omega rate x (ch.aa 0).st
  let f2 := P.filtStep (ch.aa 2).omega rate (f0.1 0) (ch.aa 2).st
  let spec := P.sdftStep (f2.1 3) ch.spec
  let y0 := ifft_once 1024 (P.cis ch.omega) spec.1
  let f1 := P.filtStep (ch.aa 1).omega rate y0 (ch.aa 1).st
  let f3 := P.filtStep (ch.aa 3).omega rate (f1.1 0) (ch.aa 3).st
  let fap := P.filtStep ch.ap.omega rate (f3.1 3) ch.ap.st
  ((1 - mix) * x + mix * fap.1 0,
   { aa := fun k =>
       if k = 0 then ⟨(ch.aa 0).omega, f0.2⟩
       else if k = 1 then ⟨(ch.aa 1).omega, f1.2⟩
       else if k = 2 then ⟨(ch.aa 2).omega, f2.2⟩
       else ⟨(ch.aa 3).omega, f3.2⟩,
     ap := ⟨ch.ap.omega, fap.2⟩,
     spec := spec,
     omega := phaseStep (2 * P.pi) domega ch.omega })

/-- The inner sample loop of src/lib.rs lines 83-99 over one channel's buffer:
a strictly sequential left-to-right scan threading the channel state. -/
def chanProcess {α σ : Type} [LinearOrderedField α] [FloorRing α]
    (P : ExternalOps α σ) (rate mix domega : α) :
    Chan α σ → List α → List α × Chan α σ
  | ch, [] => ([], ch)
  | ch, x :: xs =>
    let r := processSample P rate mix domega ch x
    let rest := chanProcess P rate mix domega r.2 xs
    (r.1 :: rest.1, rest.2)

/-- The channel states after the conditional cutoff rescheduling of
src/lib.rs lines 61-75, which runs once per `process` call, before the sample
loop: when the freshly computed ratio differs from the cached `pitch_mul`
(`pitch_mul != self.pitch_mul`, always true against the `NaN`/`none`
sentinel), every channel's cutoffs are rewritten; otherwise the channel
states pass through untouched. -/
def schedChans {α σ : Type} [LinearOrderedField α] [FloorRing α]
    (P : ExternalOps α σ) (e : Engine α σ) : Fin 2 → Chan α σ :=
  if some (effectivePitchMul P e.pitch e.pitch_fine) ≠ e.pitch_mul then
    fun c =>
      reschedule P e.rate (effectivePitchMul P e.pitch e.pitch_fine)
        (e.chans c)
  else
    e.chans

/-- The cached ratio after the same conditional block (`self.pitch_mul =
pitch_mul` on src/lib.rs line 74). -/
def schedCache {α σ : Type} [LinearOrderedField α] [FloorRing α]
    (P : ExternalOps α σ) (e : Engine α σ) : Option α :=
  if some (effectivePitchMul P e.pitch e.pitch_fine) ≠ e.pitch_mul then
    some (effectivePitchMul P e.pitch e.pitch_fine)
  else
    e.pitch_mul

/-- `PitchShifterPlugin::process` (src/lib.rs lines 49-101): read the
parameters once, derive the effective pitch ratio and the per-sample phase
increment, reschedule the band-limiting cutoffs when (and only when) the ratio
differs from the cached one, then run the per-sample loop channel by channel.
The in-place output buffers are modelled as the returned per-channel lists. -/
def process {α σ : Type} [LinearOrderedField α] [FloorRing α]
    (P : ExternalOps α σ) (e : Engine α σ) (input : Fin 2 → List α) :
    (Fin 2 → List α) × Engine α σ :=
  (fun c =>
    (chanProcess P e.rate e.mix
      (domegaDt (2 * P.pi) (effectivePitchMul P e.pitch e.pitch_fine))
      (schedChans P e c) (input c)).1,
   { e with
     chans := fun c =>
       (chanProcess P e.rate e.mix
         (domegaDt (2 * P.pi) (effectivePitchMul P e.pitch e.pitch_fine))
         (schedChans P e c) (input c)).2
     pitch_mul := schedCache P e })

/-- `Plugin::set_sample_rate` (src/lib.rs lines 148-151): store the new rate;
nothing else - in particular the cached `pitch_mul` is left as it is. -/
def set_sample_rate {α σ : Type} (e : Engine α σ) (rate : α) : Engine α σ :=
  { e with rate := rate }

/-- `Plugin::new` (src/lib.rs lines 106-124): parameters pitch 0, fine 0,
mix 1; every band-limiting filter built at cutoff `rate*PI`, the anti-pop
filter at `F_ANTI_POP*TAU = 10000*2π`; zero spectrum, empty auxiliary buffer,
zero phase; cached ratio set to the `NaN` sentinel (`none`); rate 44100. -/
def Engine.new {α σ : Type} [LinearOrderedField α]
    (P : ExternalOps α σ) : Engine α σ :=
  { pitch := 0
    pitch_fine := 0
    mix := 1
    chans := fun _ =>
      { aa := fun _ => ⟨44100 * P.pi, P.initSt⟩
        ap := ⟨10000 * (2 * P.pi), P.initSt⟩
        spec := (fun _ => ⟨0, 0⟩, [])
        omega := 0 }
    pitch_mul := none
    rate := 44100 }

/-! ### Concrete instantiations of the external-collaborator contracts,
used to evaluate the engine on explicit inputs. -/

/-- A trivial instantiation of the external collaborators over `ℚ` with unit
internal filter state: filters pass their input through on every output, the
spectrum update is the identity and `pow2` is constantly 1. -/
def trivOps : ExternalOps ℚ Unit :=
  { pi := 0
    pow2 := fun _ => 1
    cis := fun _ => ⟨1, 0⟩
    filtStep := fun _ _ x s => (fun _ => x, s)
    initSt := ()
    sdftStep := fun _ s => s }

/-- An instantiation over `ℚ` with `pi = 3`, so that the scheduled cutoff
values are nonzero and sample-rate dependence becomes observable. -/
def cexOps : ExternalOps ℚ Unit :=
  { pi := 3
    pow2 := fun _ => 1
    cis := fun _ => ⟨1, 0⟩
    filtStep := fun _ _ x s => (fun _ => x, s)
    initSt := ()
    sdftStep := fun _ s => s }

/-- A concrete engine state over `ℚ`: the cutoff cache holds the current
effective ratio `1 = cexOps.pow2 0` (as after a previous buffer at rate 1) and
every band-limiting cutoff is 5. -/
def cexEngine : Engine ℚ Unit :=
  { pitch := 0
    pitch_fine := 0
    mix := 1
    chans := fun _ =>
      { aa := fun _ => ⟨5, ()⟩
        ap := ⟨7, ()⟩
        spec := (fun _ => ⟨0, 0⟩, [])
        omega := 0 }
    pitch_mul := some 1
    rate := 1 }

/-! ## Helper lemmas -/

/-- Reassembling the four little-endian bytes of a 32-bit pattern restores the
pattern. -/
theorem fromLeBytes_toLeBytes (x : ℕ) (h : x < 2 ^ 32) :
    fromLeBytes (x % 256) (x / 256 % 256) (x / 256 ^ 2 % 256) (x / 256 ^ 3 % 256)
      = x := by
  unfold fromLeBytes
  norm_num
  omega

/-- `readF32` fails exactly like `split_array_ref` when fewer than four bytes
remain past offset `i`. -/
theorem readF32_eq_none (data : List ℕ) (i : ℕ) (h : data.length < i + 4) :
    readF32 data i = none := by
  have hlen : (data.drop i).length < 4 := by
    rw [List.length_drop]; omega
  unfold readF32
  rcases hd : data.drop i with _ | ⟨a, _ | ⟨b, _ | ⟨c, _ | ⟨d, t⟩⟩⟩⟩
  · rfl
  · rfl
  · rfl
  · rfl
  · exfalso
    rw [hd] at hlen
    simp only [List.length_cons] at hlen
    omega

/-- `load_preset_data` fails (panics) on every buffer shorter than 12 bytes. -/
theorem load_preset_data_short (data : List ℕ) (h : data.length < 12) :
    load_preset_data data = none := by
  unfold load_preset_data
  rw [readF32_eq_none data 8 (by omega)]
  rcases readF32 data 0 <;> rcases readF32 data 4 <;> rfl

/-- `Control::from` panics exactly on the indices outside `0..=2`. -/
theorem Control.fromInt_eq_none (i : ℤ) (h : ¬(0 ≤ i ∧ i < 3)) :
    Control.fromInt i = none := by
  unfold Control.fromInt
  by_cases h0 : 0 ≤ i
  · rw [if_pos h0]
    apply List.get?_eq_none.2
    have : (3 : ℤ) ≤ i := by omega
    simp [CONTROLS]
    omega
  · rw [if_neg h0]

/-- Complex multiplication is commutative. -/
theorem Cplx.mul_comm {α : Type} [CommRing α] (a b : Cplx α) :
    a.mul b = b.mul a := by
  cases a; cases b
  simp only [Cplx.mul, Cplx.mk.injEq]
  constructor <;> ring

/-- Complex multiplication is associative. -/
theorem Cplx.mul_assoc {α : Type} [CommRing α] (a b c : Cplx α) :
    (a.mul b).mul c = a.mul (b.mul c) := by
  cases a; cases b; cases c
  simp only [Cplx.mul, Cplx.mk.injEq]
  constructor <;> ring

/-- `⟨1, 0⟩` is a right unit for complex multiplication. -/
theorem Cplx.mul_one' {α : Type} [CommRing α] (a : Cplx α) :
    a.mul ⟨1, 0⟩ = a := by
  cases a
  simp [Cplx.mul]

/-- Closed form for the `ifft_once` summation loop: starting at bin `k` with
rotation factor `zn`, the `m` accumulated terms are
`Re(x[k+j] · zn·z^j) · 2` for `j = 0, …, m-1`. -/
theorem ifftSum_eq {α : Type} [CommRing α] (x : ℕ → Cplx α) (z : Cplx α) :
    ∀ (m k : ℕ) (zn : Cplx α),
      ifftSum x z k m zn
        = ∑ j ∈ Finset.range m, ((x (k + j)).mul (zn.mul (z.cpow j))).re * 2 := by
  intro m
  induction m with
  | zero => intro k zn; simp [ifftSum]
  | succ m ih =>
    intro k zn
    rw [ifftSum, ih (k + 1) (zn.mul z), Finset.sum_range_succ']
    have ht : ((x k).mul zn).re * 2
        = ((x (k + 0)).mul (zn.mul (z.cpow 0))).re * 2 := by
      rw [Nat.add_zero, show z.cpow 0 = (⟨1, 0⟩ : Cplx α) from rfl,
        Cplx.mul_one']
    have hS : ∑ j ∈ Finset.range m,
          ((x (k + 1 + j)).mul ((zn.mul z).mul (z.cpow j))).re * 2
        = ∑ j ∈ Finset.range m,
          ((x (k + (j + 1))).mul (zn.mul (z.cpow (j + 1)))).re * 2 := by
      apply Finset.sum_congr rfl
      intro j _
      have h1 : k + 1 + j = k + (j + 1) := by omega
      have h2 : (zn.mul z).mul (z.cpow j) = zn.mul (z.cpow (j + 1)) := by
        rw [Cplx.mul_assoc,
          show z.cpow (j + 1) = (z.cpow j).mul z from rfl,
          Cplx.mul_comm z (z.cpow j)]
      rw [h1, h2]
    rw [ht, hS, add_comm]

/-- The partial resynthesis at window length 1024 equals the spec's sum over
bins 1 through 512 (the Nyquist bin included), with `z^k` standing for the
rotation `e^{iωk}`. -/
theorem ifft_once_eq {α : Type} [Field α] (z : Cplx α) (x : ℕ → Cplx α) :
    ifft_once 1024 z x
      = ((x 0).re + ∑ k ∈ Finset.Icc 1 512, ((x k).mul (z.cpow k)).re * 2)
          / 1024 := by
  have hIcc : ∑ k ∈ Finset.Icc 1 512, ((x k).mul (z.cpow k)).re * 2
      = ∑ j ∈ Finset.range 512, ((x (1 + j)).mul (z.mul (z.cpow j))).re * 2 := by
    rw [← Nat.Ico_succ_right, Finset.sum_Ico_eq_sum_range]
    apply Finset.sum_congr rfl
    intro j _
    have h2 : z.cpow (1 + j) = z.mul (z.cpow j) := by
      rw [show (1 + j) = j + 1 by omega,
        show z.cpow (j + 1) = (z.cpow j).mul z from rfl,
        Cplx.mul_comm (z.cpow j) z]
    rw [h2]
  unfold ifft_once
  rw [ifftSum_eq, hIcc]
  norm_num

/-- De Moivre: the `k`-th power of `cos ω + i sin ω` is `cos kω + i sin kω`. -/
theorem Cplx.cpow_cos_sin (w : ℝ) (k : ℕ) :
    (⟨Real.cos w, Real.sin w⟩ : Cplx ℝ).cpow k
      = ⟨Real.cos (k * w), Real.sin (k * w)⟩ := by
  induction k with
  | zero => simp [Cplx.cpow]
  | succ k ih =>
    rw [Cplx.cpow, ih]
    simp only [Cplx.mul, Cplx.mk.injEq]
    push_cast
    constructor
    · rw [show ((k : ℝ) + 1) * w = k * w + w by ring, Real.cos_add]
    · rw [show ((k : ℝ) + 1) * w = k * w + w by ring, Real.sin_add]
      ring

/-! ## Claim C4 -/

/-- C4: for every phase `ω` and complex spectrum `x` of length 1024,
`ifft_once` returns exactly
`(x[0].re + Σ_{k=1}^{512} Re(x[k]·e^{iωk}) · 2) / 1024`, the summation running
from bin 1 through the Nyquist bin 512 inclusive; in particular, with `ω = 0`
and a spectrum whose only nonzero bin is the DC bin `x[0] = c`, it returns
`c / 1024` exactly. -/
theorem C4_ifft_once_formula (w c : ℝ) (x : ℕ → Cplx ℝ) :
    ifft_once 1024 ⟨Real.cos w, Real.sin w⟩ x
        = ((x 0).re + ∑ k ∈ Finset.Icc 1 512,
            ((x k).re * Real.cos (k * w) - (x k).im * Real.sin (k * w)) * 2)
          / 1024 ∧
      ifft_once 1024 ⟨Real.cos 0, Real.sin 0⟩
          (fun k => if k = 0 then ⟨c, 0⟩ else ⟨0, 0⟩) = c / 1024 := by
  constructor
  · rw [ifft_once_eq]
    congr 2
    apply Finset.sum_congr rfl
    intro k _
    rw [Cplx.cpow_cos_sin]
    rfl
  · rw [ifft_once_eq]
    have hz : ∑ k ∈ Finset.Icc 1 512,
        (((fun k => if k = 0 then (⟨c, 0⟩ : Cplx ℝ) else ⟨0, 0⟩) k).mul
          ((⟨Real.cos 0, Real.sin 0⟩ : Cplx ℝ).cpow k)).re * 2 = 0 := by
      apply Finset.sum_eq_zero
      intro k hk
      have hk0 : k ≠ 0 := by
        simp only [Finset.mem_Icc] at hk
        omega
      simp [hk0, Cplx.mul]
    rw [hz]
    simp

/-- The mathematical modulus is nonnegative for a positive modulus. -/
theorem mathMod_nonneg {α : Type} [LinearOrderedField α] [FloorRing α]
    (a : α) {b : α} (hb : 0 < b) : 0 ≤ mathMod a b := by
  unfold mathMod
  rw [mul_comm]
  exact Int.sub_floor_div_mul_nonneg a hb

/-- The mathematical modulus is below a positive modulus. -/
theorem mathMod_lt {α : Type} [LinearOrderedField α] [FloorRing α]
    (a : α) {b : α} (hb : 0 < b) : mathMod a b < b := by
  unfold mathMod
  rw [mul_comm]
  exact Int.sub_floor_div_mul_lt a hb

/-- On a nonnegative dividend and positive divisor, Rust's `%` agrees with the
mathematical modulus (truncation and floor coincide). -/
theorem frem_eq_mathMod {α : Type} [LinearOrderedField α] [FloorRing α]
    {a b : α} (ha : 0 ≤ a) (hb : 0 < b) : frem a b = mathMod a b := by
  unfold frem mathMod rtrunc
  rw [if_pos (div_nonneg ha hb.le)]

/-- Adding the modulus once does not change the mathematical modulus. -/
theorem mathMod_add_right {α : Type} [LinearOrderedField α] [FloorRing α]
    (a : α) {b : α} (hb : b ≠ 0) : mathMod (a + b) b = mathMod a b := by
  unfold mathMod
  have h1 : (a + b) / b = a / b + 1 := by field_simp
  rw [h1, show (1 : α) = ((1 : ℤ) : α) by norm_num, Int.floor_add_int]
  push_cast
  ring

/-- Reducing the first summand modulo `b` does not change the modulus of a
sum. -/
theorem mathMod_add_mathMod {α : Type} [LinearOrderedField α] [FloorRing α]
    (a c : α) {b : α} (hb : 0 < b) :
    mathMod (mathMod a b + c) b = mathMod (a + c) b := by
  unfold mathMod
  have hb0 : b ≠ 0 := ne_of_gt hb
  have h1 : (a - b * (⌊a / b⌋ : α) + c) / b = (a + c) / b - (⌊a / b⌋ : α) := by
    field_simp
    ring
  rw [h1, Int.floor_sub_int]
  push_cast
  ring

/-- One phase update with a nonnegative shifted argument is a mathematical
modulus. -/
theorem phaseStep_eq_mathMod {α : Type} [LinearOrderedField α] [FloorRing α]
    {tau d phase : α} (htau : 0 < tau) (harg : 0 ≤ phase + d + tau) :
    phaseStep tau d phase = mathMod (phase + d) tau := by
  unfold phaseStep
  rw [frem_eq_mathMod harg htau, mathMod_add_right _ (ne_of_gt htau)]

/-! ## Claim C5 -/

/-- C5: for every pitch ratio `r > 0` and phase in `[0, 2π)`, the per-sample
update `phase := (phase + Δω + 2π) % 2π` with `Δω = 2π(r−1)/1024` keeps the
phase in `[0, 2π)` (the `+2π` making the dividend nonnegative even when
`r < 1`), and `M` updates starting from phase 0 at constant ratio produce
exactly `(M·Δω) mod 2π`. -/
theorem C5_phase_invariant (r phi : ℝ) (M : ℕ)
    (hr : 0 < r) (h0 : 0 ≤ phi) (h1 : phi < 2 * Real.pi) :
    (0 ≤ phaseStep (2 * Real.pi) (domegaDt (2 * Real.pi) r) phi ∧
      phaseStep (2 * Real.pi) (domegaDt (2 * Real.pi) r) phi < 2 * Real.pi) ∧
      (phaseStep (2 * Real.pi) (domegaDt (2 * Real.pi) r))^[M] 0
        = mathMod ((M : ℝ) * domegaDt (2 * Real.pi) r) (2 * Real.pi) := by
  have htau : (0 : ℝ) < 2 * Real.pi := Real.two_pi_pos
  have hdlb : 0 < domegaDt (2 * Real.pi) r + 2 * Real.pi := by
    have hd : domegaDt (2 * Real.pi) r = 2 * Real.pi * (r - 1) / 1024 := rfl
    rw [hd]
    nlinarith [mul_pos htau hr]
  constructor
  · have harg : 0 ≤ phi + domegaDt (2 * Real.pi) r + 2 * Real.pi := by
      linarith
    rw [phaseStep_eq_mathMod htau harg]
    exact ⟨mathMod_nonneg _ htau, mathMod_lt _ htau⟩
  · induction M with
    | zero =>
      simp [mathMod]
    | succ M ih =>
      rw [Function.iterate_succ_apply', ih]
      have hmm0 : 0 ≤ mathMod ((M : ℝ) * domegaDt (2 * Real.pi) r)
          (2 * Real.pi) := mathMod_nonneg _ htau
      have harg : 0 ≤ mathMod ((M : ℝ) * domegaDt (2 * Real.pi) r)
          (2 * Real.pi) + domegaDt (2 * Real.pi) r + 2 * Real.pi := by
        linarith
      rw [phaseStep_eq_mathMod htau harg, mathMod_add_mathMod _ _ htau]
      congr 1
      push_cast
      ring

/-- C5, witness at ratio 1, phase 0 and three updates. -/
theorem C5_phase_invariant_witness :
    (0 : ℝ) < 1 ∧ (0 : ℝ) ≤ 0 ∧ (0 : ℝ) < 2 * Real.pi ∧
      ((0 ≤ phaseStep (2 * Real.pi) (domegaDt (2 * Real.pi) 1) 0 ∧
        phaseStep (2 * Real.pi) (domegaDt (2 * Real.pi) 1) 0 < 2 * Real.pi) ∧
        (phaseStep (2 * Real.pi) (domegaDt (2 * Real.pi) 1))^[3] 0
          = mathMod (((3 : ℕ) : ℝ) * domegaDt (2 * Real.pi) 1) (2 * Real.pi)) :=
  ⟨by norm_num, le_rfl, Real.two_pi_pos,
    C5_phase_invariant 1 0 3 (by norm_num) le_rfl Real.two_pi_pos⟩

/-! ## Claim C2 -/

/-- C2, counterexample: a 16-byte buffer has length different from 12, yet
`load_preset_data` does not fail - it succeeds, silently ignoring the four
trailing bytes.  This refutes the claim that every buffer whose length is not
exactly 12 fails explicitly at load time. -/
theorem C2_counterexample :
    load_preset_data (List.replicate 16 0) = some ⟨0, 0, 0⟩ ∧
      (List.replicate 16 (0 : ℕ)).length = 16 := by
  constructor
  · rfl
  · rfl

/-- C2, amended: `load_preset_data` panics (modelled `none`) on every buffer
shorter than 12 bytes rather than reporting a defined error, and on every
buffer of length at least 12 it succeeds, setting pitch, fine pitch and mix
from the three little-endian 32-bit fields at offsets 0, 4 and 8 in that order
and silently ignoring all trailing bytes. -/
theorem C2_amended (b0 b1 b2 b3 b4 b5 b6 b7 b8 b9 b10 b11 : ℕ)
    (rest data : List ℕ) (h : data.length < 12) :
    load_preset_data
        (b0 :: b1 :: b2 :: b3 :: b4 :: b5 :: b6 :: b7 :: b8 :: b9 :: b10 ::
          b11 :: rest)
      = some ⟨fromLeBytes b0 b1 b2 b3, fromLeBytes b4 b5 b6 b7,
          fromLeBytes b8 b9 b10 b11⟩ ∧
      load_preset_data data = none ∧ load_bank_data data = none := by
  refine ⟨rfl, load_preset_data_short data h, ?_⟩
  unfold load_bank_data
  exact load_preset_data_short data h

/-- C2, witness for the amended statement at a concrete input: a 13-byte buffer
is accepted with its last byte ignored, and the empty buffer panics. -/
theorem C2_amended_witness :
    ([] : List ℕ).length < 12 ∧
      (load_preset_data [1, 0, 0, 0, 2, 0, 0, 0, 3, 0, 0, 0, 9]
          = some ⟨fromLeBytes 1 0 0 0, fromLeBytes 2 0 0 0, fromLeBytes 3 0 0 0⟩ ∧
        load_preset_data [] = none ∧ load_bank_data [] = none) :=
  ⟨by decide, C2_amended 1 0 0 0 2 0 0 0 3 0 0 0 [9] [] (by decide)⟩

/-! ## Claim C3 -/

/-- C3, counterexample: the index `-1` lies outside `0..=2`, yet
`can_be_automated` reports no error at all - it returns `true`, claiming the
nonexistent parameter is automatable.  This refutes the claim that every
parameter operation checks the index and reports a defined error. -/
theorem C3_counterexample : can_be_automated (-1) = true := by
  rfl

/-- C3, amended: for every index outside `0..=2`, the five operations that go
through `Control::from` (`get_parameter`, `set_parameter`,
`get_parameter_name`, `get_parameter_label`, `get_parameter_text`) panic via
the slice bounds check (modelled `none`) instead of reporting a defined error,
while `can_be_automated` only compares the index against the upper bound 3,
returning `true` on every negative index. -/
theorem C3_amended (p : ParamVals) (v : ℚ) (i : ℤ) (h : ¬(0 ≤ i ∧ i < 3)) :
    get_parameter p i = none ∧ set_parameter p i v = none ∧
      get_parameter_name i = none ∧ get_parameter_label i = none ∧
      get_parameter_text p i = none ∧ can_be_automated i = decide (i < 3) := by
  have hf := Control.fromInt_eq_none i h
  refine ⟨?_, ?_, ?_, ?_, ?_, rfl⟩ <;>
    simp [get_parameter, set_parameter, get_parameter_name,
      get_parameter_label, get_parameter_text, hf]

/-- C3, witness for the amended statement at the concrete out-of-range index
3. -/
theorem C3_amended_witness :
    ¬((0 : ℤ) ≤ 3 ∧ (3 : ℤ) < 3) ∧
      (get_parameter ⟨0, 0, 1⟩ 3 = none ∧ set_parameter ⟨0, 0, 1⟩ 3 0 = none ∧
        get_parameter_name 3 = none ∧ get_parameter_label 3 = none ∧
        get_parameter_text ⟨0, 0, 1⟩ 3 = none ∧
        can_be_automated 3 = decide ((3 : ℤ) < 3)) :=
  ⟨by decide, C3_amended ⟨0, 0, 1⟩ 0 3 (by decide)⟩

/-! ## Claim C7 -/

/-- C7: `get_preset_data` produces exactly 12 bytes - the little-endian 32-bit
encodings of pitch, fine pitch and mix in that order - and loading the
serialized bytes restores the exact bit pattern of all three parameters, for
every parameter state (non-finite bit patterns included, since the statement
ranges over all 32-bit patterns). -/
theorem C7_preset_roundtrip (p f m : ℕ)
    (hp : p < 2 ^ 32) (hf : f < 2 ^ 32) (hm : m < 2 ^ 32) :
    (get_preset_data ⟨p, f, m⟩).length = 12 ∧
      get_preset_data ⟨p, f, m⟩ = toLeBytes p ++ toLeBytes f ++ toLeBytes m ∧
      load_preset_data (get_preset_data ⟨p, f, m⟩) = some ⟨p, f, m⟩ := by
  refine ⟨rfl, rfl, ?_⟩
  have : load_preset_data (get_preset_data ⟨p, f, m⟩)
      = some ⟨fromLeBytes (p % 256) (p / 256 % 256) (p / 256 ^ 2 % 256)
          (p / 256 ^ 3 % 256),
        fromLeBytes (f % 256) (f / 256 % 256) (f / 256 ^ 2 % 256)
          (f / 256 ^ 3 % 256),
        fromLeBytes (m % 256) (m / 256 % 256) (m / 256 ^ 2 % 256)
          (m / 256 ^ 3 % 256)⟩ := rfl
  rw [this, fromLeBytes_toLeBytes p hp, fromLeBytes_toLeBytes f hf,
    fromLeBytes_toLeBytes m hm]

/-- C7, witness at a concrete parameter state (the bit pattern `0x7fc00000` of
a `NaN` included). -/
theorem C7_preset_roundtrip_witness :
    (2143289344 : ℕ) < 2 ^ 32 ∧ (1 : ℕ) < 2 ^ 32 ∧ (3212836864 : ℕ) < 2 ^ 32 ∧
      ((get_preset_data ⟨2143289344, 1, 3212836864⟩).length = 12 ∧
        get_preset_data ⟨2143289344, 1, 3212836864⟩
          = toLeBytes 2143289344 ++ toLeBytes 1 ++ toLeBytes 3212836864 ∧
        load_preset_data (get_preset_data ⟨2143289344, 1, 3212836864⟩)
          = some ⟨2143289344, 1, 3212836864⟩) :=
  ⟨by norm_num, by norm_num, by norm_num,
    C7_preset_roundtrip 2143289344 1 3212836864 (by norm_num) (by norm_num)
      (by norm_num)⟩

/-- The per-sample loop body never touches the cutoff of any band-limiting
filter. -/
theorem processSample_aa_omega {α σ : Type} [LinearOrderedField α] [FloorRing α]
    (P : ExternalOps α σ) (rate mix domega : α) (ch : Chan α σ) (x : α)
    (k : Fin 4) :
    (((processSample P rate mix domega ch x).2).aa k).omega
      = ((ch.aa k).omega) := by
  fin_cases k <;> rfl

/-- The whole sample loop never touches the cutoff of any band-limiting
filter. -/
theorem chanProcess_aa_omega {α σ : Type} [LinearOrderedField α] [FloorRing α]
    (P : ExternalOps α σ) (rate mix domega : α) (xs : List α) :
    ∀ (ch : Chan α σ) (k : Fin 4),
      (((chanProcess P rate mix domega ch xs).2).aa k).omega
        = ((ch.aa k).omega) := by
  induction xs with
  | nil => intro ch k; rfl
  | cons x xs ih =>
    intro ch k
    show (((chanProcess P rate mix domega
        (processSample P rate mix domega ch x).2 xs).2).aa k).omega = _
    rw [ih, processSample_aa_omega]

/-- After `process`, the band-limiting cutoffs of channel `c` are those left
by the once-per-buffer conditional rescheduling - the sample loop never
changes them, whatever the buffer contents. -/
theorem process_aa_omega {α σ : Type} [LinearOrderedField α] [FloorRing α]
    (P : ExternalOps α σ) (e : Engine α σ) (input : Fin 2 → List α)
    (c : Fin 2) (k : Fin 4) :
    (((process P e input).2.chans c).aa k).omega
      = ((schedChans P e c).aa k).omega :=
  chanProcess_aa_omega P e.rate e.mix
    (domegaDt (2 * P.pi) (effectivePitchMul P e.pitch e.pitch_fine))
    (input c) (schedChans P e c) k

/-- When the cache holds the current effective ratio, the rescheduling block
is skipped. -/
theorem schedChans_of_cached {α σ : Type} [LinearOrderedField α] [FloorRing α]
    (P : ExternalOps α σ) (e : Engine α σ)
    (hcache : e.pitch_mul = some (effectivePitchMul P e.pitch e.pitch_fine)) :
    schedChans P e = e.chans := by
  unfold schedChans
  rw [if_neg]
  rw [hcache]
  exact fun h => h rfl

/-- When the cache does not hold the current effective ratio, the
rescheduling block runs. -/
theorem schedChans_of_stale {α σ : Type} [LinearOrderedField α] [FloorRing α]
    (P : ExternalOps α σ) (e : Engine α σ)
    (hcache : e.pitch_mul ≠ some (effectivePitchMul P e.pitch e.pitch_fine)) :
    schedChans P e = fun c =>
      reschedule P e.rate (effectivePitchMul P e.pitch e.pitch_fine)
        (e.chans c) := by
  unfold schedChans
  rw [if_pos fun h => hcache h.symm]

/-! ## Claim C6 -/

/-- C6: a process call whose effective pitch ratio equals the cached ratio
leaves every band-limiting cutoff of every channel unchanged; otherwise the
four cutoffs are set, once per buffer and independently of the buffer
contents, to the scheduled values derived from the rate and the new ratio; the
cache is initialized by `new` to the invalid `NaN` sentinel (modelled `none`),
so the first process call always recomputes (last conjunct, where the cutoff
after the first call on a fresh engine is the scheduled value, whatever the
buffer). -/
theorem C6_cutoff_schedule {α σ : Type} [LinearOrderedField α] [FloorRing α]
    (P : ExternalOps α σ) (e : Engine α σ) (input : Fin 2 → List α)
    (c : Fin 2) :
    ((((process P e input).2.chans c).aa 0).omega
        = if e.pitch_mul = some (effectivePitchMul P e.pitch e.pitch_fine)
          then ((e.chans c).aa 0).omega
          else omegaCeil0 P e.rate (effectivePitchMul P e.pitch e.pitch_fine)) ∧
      ((((process P e input).2.chans c).aa 1).omega
        = if e.pitch_mul = some (effectivePitchMul P e.pitch e.pitch_fine)
          then ((e.chans c).aa 1).omega
          else omegaCeil1 P e.rate (effectivePitchMul P e.pitch e.pitch_fine)) ∧
      ((((process P e input).2.chans c).aa 2).omega
        = if e.pitch_mul = some (effectivePitchMul P e.pitch e.pitch_fine)
          then ((e.chans c).aa 2).omega
          else omegaFloor0 P e.rate (effectivePitchMul P e.pitch e.pitch_fine)) ∧
      ((((process P e input).2.chans c).aa 3).omega
        = if e.pitch_mul = some (effectivePitchMul P e.pitch e.pitch_fine)
          then ((e.chans c).aa 3).omega
          else omegaFloor1 P e.rate (effectivePitchMul P e.pitch e.pitch_fine)) ∧
      (Engine.new P : Engine α σ).pitch_mul = none ∧
      (((process P (Engine.new P : Engine α σ) input).2.chans c).aa 0).omega
        = omegaCeil0 P (44100 : α) (effectivePitchMul P (0 : α) (0 : α)) := by
  have hnew : (((process P (Engine.new P : Engine α σ) input).2.chans c).aa
      0).omega = omegaCeil0 P (44100 : α)
        (effectivePitchMul P (0 : α) (0 : α)) := by
    rw [process_aa_omega,
      schedChans_of_stale P (Engine.new P) (by simp [Engine.new])]
    rfl
  by_cases hcache :
      e.pitch_mul = some (effectivePitchMul P e.pitch e.pitch_fine)
  · have hs := schedChans_of_cached P e hcache
    refine ⟨?_, ?_, ?_, ?_, rfl, hnew⟩ <;>
      rw [process_aa_omega, hs, if_pos hcache]
  · have hs := schedChans_of_stale P e hcache
    refine ⟨?_, ?_, ?_, ?_, rfl, hnew⟩ <;>
      rw [process_aa_omega, hs, if_neg hcache] <;> rfl

/-! ## Claim C1 -/

/-- C1, counterexample: `cexEngine` cached the effective ratio 1 at rate 1
with every band-limiting cutoff equal to 5.  After `set_sample_rate` to the
new rate 2, a `process` call with the ratio still 1 leaves the cutoff at 5,
although the value recomputed from the new rate would be
`omegaCeil0 = 2 * π = 6` (here `π = 3`).  So `set_sample_rate` does not
invalidate the cutoff cache, refuting the claim. -/
theorem C1_counterexample :
    (((process cexOps (set_sample_rate cexEngine 2) fun _ => []).2.chans
          0).aa 0).omega = 5 ∧
      omegaCeil0 cexOps 2
        (effectivePitchMul cexOps cexEngine.pitch cexEngine.pitch_fine) = 6 := by
  constructor
  · decide
  · norm_num [omegaCeil0, cexOps, cexEngine, effectivePitchMul,
      PITCH_PER_FINE_PITCH, OCTAVES_PER_UNIT_PITCH]

/-- C1, amended: `set_sample_rate` stores the new rate and changes nothing
else - in particular it does not invalidate the cutoff cache.  The next
`process` call recomputes the cutoffs (from the new rate) only if the
effective pitch ratio differs from the cached one; when the ratio is
unchanged, the cutoffs keep their old values, computed from the old rate. -/
theorem C1_amended {α σ : Type} [LinearOrderedField α] [FloorRing α]
    (P : ExternalOps α σ) (e : Engine α σ) (newr : α)
    (input : Fin 2 → List α) (c : Fin 2) :
    (set_sample_rate e newr).rate = newr ∧
      (set_sample_rate e newr).pitch_mul = e.pitch_mul ∧
      (set_sample_rate e newr).chans = e.chans ∧
      ((((process P (set_sample_rate e newr) input).2.chans c).aa 0).omega
        = if e.pitch_mul = some (effectivePitchMul P e.pitch e.pitch_fine)
          then ((e.chans c).aa 0).omega
          else omegaCeil0 P newr
            (effectivePitchMul P e.pitch e.pitch_fine)) ∧
      ((((process P (set_sample_rate e newr) input).2.chans c).aa 1).omega
        = if e.pitch_mul = some (effectivePitchMul P e.pitch e.pitch_fine)
          then ((e.chans c).aa 1).omega
          else omegaCeil1 P newr
            (effectivePitchMul P e.pitch e.pitch_fine)) ∧
      ((((process P (set_sample_rate e newr) input).2.chans c).aa 2).omega
        = if e.pitch_mul = some (effectivePitchMul P e.pitch e.pitch_fine)
          then ((e.chans c).aa 2).omega
          else omegaFloor0 P newr
            (effectivePitchMul P e.pitch e.pitch_fine)) ∧
      ((((process P (set_sample_rate e newr) input).2.chans c).aa 3).omega
        = if e.pitch_mul = some (effectivePitchMul P e.pitch e.pitch_fine)
          then ((e.chans c).aa 3).omega
          else omegaFloor1 P newr
            (effectivePitchMul P e.pitch e.pitch_fine)) := by
  by_cases hcache :
      e.pitch_mul = some (effectivePitchMul P e.pitch e.pitch_fine)
  · have hs := schedChans_of_cached P (set_sample_rate e newr) hcache
    refine ⟨rfl, rfl, rfl, ?_, ?_, ?_, ?_⟩ <;>
      (rw [process_aa_omega, hs, if_pos hcache]; rfl)
  · have hs := schedChans_of_stale P (set_sample_rate e newr) hcache
    refine ⟨rfl, rfl, rfl, ?_, ?_, ?_, ?_⟩ <;>
      (rw [process_aa_omega, hs, if_neg hcache]; rfl)

/-! ## Claim C8 -/

/-- C8: every output sample is exactly `(1 − m)·x + m·y`, where `x` is the
input sample, `y` the fully processed (wet) sample and `m` the raw mix value,
with no smoothing; in particular `m = 0` returns the raw input exactly (the
wet term contributing nothing) and `m = 1` returns the processed sample with
zero dry contribution. -/
theorem C8_mix {α σ : Type} [LinearOrderedField α] [FloorRing α]
    (P : ExternalOps α σ) (rate mix domega : α) (ch : Chan α σ) (x : α) :
    (processSample P rate mix domega ch x).1
        = (1 - mix) * x + mix * chainY P rate ch x ∧
      (processSample P rate 0 domega ch x).1 = x ∧
      (processSample P rate 1 domega ch x).1 = chainY P rate ch x := by
  refine ⟨rfl, ?_, ?_⟩
  · show (1 - 0) * x + 0 * chainY P rate ch x = x
    ring
  · show (1 - 1) * x + 1 * chainY P rate ch x = chainY P rate ch x
    ring

/-! ## Claim C9 -/

/-- The sample loop is causal: if two input buffers agree up to index `i`,
the outputs agree at index `i`, for any starting channel state. -/
theorem chanProcess_get?_take {α σ : Type} [LinearOrderedField α] [FloorRing α]
    (P : ExternalOps α σ) (rate mix domega : α) :
    ∀ (i : ℕ) (ch : Chan α σ) (xs ys : List α),
      xs.take (i + 1) = ys.take (i + 1) →
      ((chanProcess P rate mix domega ch xs).1).get? i
        = ((chanProcess P rate mix domega ch ys).1).get? i := by
  intro i
  induction i with
  | zero =>
    intro ch xs ys h
    cases xs with
    | nil =>
      cases ys with
      | nil => rfl
      | cons y ys' => simp [List.take] at h
    | cons x xs' =>
      cases ys with
      | nil => simp [List.take] at h
      | cons y ys' =>
        simp only [List.take, List.cons.injEq] at h
        rw [h.1]
        rfl
  | succ i ih =>
    intro ch xs ys h
    cases xs with
    | nil =>
      cases ys with
      | nil => rfl
      | cons y ys' => simp [List.take] at h
    | cons x xs' =>
      cases ys with
      | nil => simp [List.take] at h
      | cons y ys' =>
        simp only [List.take, List.cons.injEq] at h
        rw [h.1]
        show ((chanProcess P rate mix domega
            (processSample P rate mix domega ch y).2 xs').1).get? i = _
        exact ih (processSample P rate mix domega ch y).2 xs' ys' h.2

/-- C9: per-channel causality of `process` - starting from identical engine
state, if two input buffers agree on channel `c` at indices `0..=i` (while
the other channel may differ arbitrarily), then the output buffers agree on
channel `c` at index `i`.  Output sample `i` of a channel therefore depends
only on the start-of-buffer state and on that channel's input samples at
indices at most `i`. -/
theorem C9_causality {α σ : Type} [LinearOrderedField α] [FloorRing α]
    (P : ExternalOps α σ) (e : Engine α σ) (in1 in2 : Fin 2 → List α)
    (c : Fin 2) (i : ℕ)
    (h : (in1 c).take (i + 1) = (in2 c).take (i + 1)) :
    ((process P e in1).1 c).get? i = ((process P e in2).1 c).get? i :=
  chanProcess_get?_take P e.rate e.mix
    (domegaDt (2 * P.pi) (effectivePitchMul P e.pitch e.pitch_fine)) i
    (schedChans P e c) (in1 c) (in2 c) h

/-- C9, witness: two stereo buffers agreeing on the first two samples of
channel 0 only - the outputs of channel 0 agree at index 1. -/
theorem C9_causality_witness :
    ((fun c : Fin 2 => if c = 0 then [(1 : ℚ), 2, 3] else [5]) 0).take 2
        = ((fun c : Fin 2 => if c = 0 then [(1 : ℚ), 2, 4] else [9]) 0).take 2 ∧
      (((process trivOps (Engine.new trivOps)
            (fun c : Fin 2 => if c = 0 then [(1 : ℚ), 2, 3] else [5])).1
          0).get? 1
        = ((process trivOps (Engine.new trivOps)
            (fun c : Fin 2 => if c = 0 then [(1 : ℚ), 2, 4] else [9])).1
          0).get? 1) :=
  ⟨rfl, C9_causality trivOps (Engine.new trivOps) _ _ 0 1 rfl⟩

/-! ## Claim C10 -/

/-- C10: bank serialization is identical to preset serialization -
`get_bank_data` returns exactly the bytes of `get_preset_data` on every
parameter state, and `load_bank_data` behaves exactly like `load_preset_data`
on every input buffer. -/
theorem C10_bank_eq_preset (p : ParamBits) (data : List ℕ) :
    get_bank_data p = get_preset_data p ∧
      load_bank_data data = load_preset_data data :=
  ⟨rfl, rfl⟩
